import Mathlib

/-!
# Round-Robin scheduling policy: a shallow embedding

This file embeds the `RRSchedulingPolicy` class
(`src/include/RRSchedulingPolicy.hpp`, `src/src/RRSchedulingPolicy.cpp`)
in Lean and verifies the behavioural properties of its four operations
`newProcess`, `dispatch`, `preempt` and `resetPolicy`.

The mutable C++ object (the FIFO `readyQueue` of `Pid` plus the fields
`runningPid`, `quantumClock`, `quantum` inherited from the
`SchedulingPolicy` base class) becomes an explicit state record; each
member function becomes a state-passing function returning its C++ return
value (if any) together with the updated state.  `Pid` is `int` in the
source, embedded as `Int`; no arithmetic here approaches the machine-int
bounds in the scenarios the properties quantify over.
-/

namespace RRScheduling

/-- Modelled from the spec: the `IDLE` sentinel is declared in
`SchedulingPolicy.hpp`, which is not part of the repository sources; the
spec describes it as "a reserved ProcessId, conventionally a negative or
otherwise unused value" denoting "no process".  Its concrete value is
irrelevant to every property below; we fix the conventional `-1`. -/
def IDLE : Int := -1

/-- The policy state: the `readyQueue` member of `RRSchedulingPolicy`
(front of the C++ `queue` = head of the list) together with the
`runningPid`, `quantumClock` and `quantum` fields the implementation file
reads and writes (they live in the `SchedulingPolicy` base class, whose
header is not in the repository; the spec lists exactly these fields). -/
structure RRState where
  readyQueue : List Int
  runningPid : Int
  quantumClock : Int
  quantum : Int
deriving DecidableEq

/-- Embeds `RRSchedulingPolicy::resetPolicy()`: swap the ready queue with a
fresh empty queue and set `quantumClock = quantum`.  (The source does not
touch `runningPid`.) -/
def resetPolicy (s : RRState) : RRState :=
  { s with readyQueue := [], quantumClock := s.quantum }

/-- Embeds the constructor `RRSchedulingPolicy(int simQuantum)`: it stores
`quantum = simQuantum` and calls `resetPolicy()`.  Modelled from the spec:
the initial value of `runningPid` is set by the `SchedulingPolicy` base
class, whose sources are not in the repository; the spec says `RunningPid`
is "the ProcessId currently dispatched, or `IDLE`", so a fresh policy
starts with `runningPid = IDLE`. -/
def mkRRSchedulingPolicy (simQuantum : Int) : RRState :=
  resetPolicy
    { readyQueue := [], runningPid := IDLE, quantumClock := simQuantum,
      quantum := simQuantum }

/-- Embeds `RRSchedulingPolicy::newProcess(Pid pid)`: push the pid on the
back of the ready queue. -/
def newProcess (s : RRState) (pid : Int) : RRState :=
  { s with readyQueue := s.readyQueue ++ [pid] }

/-- Embeds `RRSchedulingPolicy::dispatch()`: if the ready queue is empty
return `IDLE` without touching the state; otherwise set `runningPid` to
the front of the queue, pop it, set `quantumClock` to `quantum`, decrement
`quantumClock` by one, and return `runningPid`. -/
def dispatch (s : RRState) : Int × RRState :=
  match s.readyQueue with
  | [] => (IDLE, s)
  | front :: rest =>
    let s1 := { s with runningPid := front, readyQueue := rest }
    let s2 := { s1 with quantumClock := s1.quantum }
    let s3 := { s2 with quantumClock := s2.quantumClock - 1 }
    (s3.runningPid, s3)

/-- Embeds `RRSchedulingPolicy::preempt()`: if `quantumClock == 0`, push
`runningPid` on the back of the ready queue, set `runningPid = IDLE` and
return `true`; otherwise decrement `quantumClock` and return `false`. -/
def preempt (s : RRState) : Bool × RRState :=
  if s.quantumClock = 0 then
    let s1 := { s with readyQueue := s.readyQueue ++ [s.runningPid] }
    let s2 := { s1 with runningPid := IDLE }
    (true, s2)
  else
    (false, { s with quantumClock := s.quantumClock - 1 })

/-- Repeatedly call `preempt`, recording the returned booleans in order. -/
def preemptResults (s : RRState) : Nat → List Bool
  | 0 => []
  | n + 1 => (preempt s).1 :: preemptResults (preempt s).2 n

/-- The four operations of the `SchedulingPolicy` contract, as trace
events. -/
inductive Op where
  | newProcess (pid : Int)
  | dispatch
  | preempt
  | resetPolicy
deriving DecidableEq

/-- State transition of one operation (return values dropped). -/
def step (s : RRState) : Op → RRState
  | .newProcess pid => newProcess s pid
  | .dispatch => (dispatch s).2
  | .preempt => (preempt s).2
  | .resetPolicy => resetPolicy s

/-- Run a sequence of operations from a state. -/
def runOps : RRState → List Op → RRState
  | s, [] => s
  | s, op :: ops => runOps (step s op) ops

/-- The literal union of the ready queue and `runningPid`, as a list. -/
def trackedAll (s : RRState) : List Int :=
  s.readyQueue ++ [s.runningPid]

/-- The real process ids the policy currently holds: the ready queue plus
the running pid when a process is actually running. -/
def tracked (s : RRState) : List Int :=
  s.readyQueue ++ if s.runningPid = IDLE then [] else [s.runningPid]

/-- Well-formed use of one operation, as the claims state it: every
`newProcess` pid is distinct from all pids currently tracked (the ready
queue and the running pid), and `preempt` is only called while a process
is running. -/
def wfOp (s : RRState) : Op → Bool
  | .newProcess pid => decide (pid ∉ trackedAll s)
  | .preempt => decide (s.runningPid ≠ IDLE)
  | _ => true

/-- Well-formed use of a whole call sequence. -/
def wfTrace (s : RRState) : List Op → Bool
  | [] => true
  | op :: ops => wfOp s op && wfTrace (step s op) ops

/-- Strengthened well-formed use: additionally every `newProcess` pid is
a real pid (not the reserved `IDLE` sentinel) and `dispatch` is only
called while the CPU is idle (`runningPid = IDLE`), which is the driver
contract the spec states for the surrounding simulator. -/
def wfOpStrict (s : RRState) : Op → Bool
  | .newProcess pid => decide (pid ∉ trackedAll s) && decide (pid ≠ IDLE)
  | .preempt => decide (s.runningPid ≠ IDLE)
  | .dispatch => decide (s.runningPid = IDLE)
  | .resetPolicy => true

/-- Strengthened well-formed use of a whole call sequence. -/
def wfTraceStrict (s : RRState) : List Op → Bool
  | [] => true
  | op :: ops => wfOpStrict s op && wfTraceStrict (step s op) ops

/-- The pids one operation removes from the front of the ready queue:
only a `dispatch` on a non-empty queue removes (and returns) one. -/
def dispatchedBy (s : RRState) : Op → List Int
  | Op.dispatch =>
    match s.readyQueue with
    | [] => []
    | front :: _ => [front]
  | _ => []

/-- The pids one operation pushes onto the back of the ready queue:
`newProcess` pushes its pid, `preempt` with an exhausted quantum clock
pushes the running pid. -/
def pushedBy (s : RRState) : Op → List Int
  | Op.newProcess pid => [pid]
  | Op.preempt => if s.quantumClock = 0 then [s.runningPid] else []
  | _ => []

/-- All pids returned by successful dispatches along a call sequence, in
order. -/
def dispatchLog : RRState → List Op → List Int
  | _, [] => []
  | s, op :: ops => dispatchedBy s op ++ dispatchLog (step s op) ops

/-- All pids pushed onto the ready queue along a call sequence (arrivals
and preemption re-queues), in order. -/
def pushLog : RRState → List Op → List Int
  | _, [] => []
  | s, op :: ops => pushedBy s op ++ pushLog (step s op) ops

/-- Sanity invariant for C6: the literal union of ready queue and running
pid has no duplicate, and the `IDLE` sentinel never sits in the ready
queue. -/
def InvC6 (s : RRState) : Prop :=
  (trackedAll s).Nodup ∧ IDLE ∉ s.readyQueue

instance (s : RRState) : Decidable (InvC6 s) :=
  inferInstanceAs (Decidable ((trackedAll s).Nodup ∧ IDLE ∉ s.readyQueue))

/-- What one operation is supposed to do to the multiset of tracked pids:
`newProcess` adds its pid, `dispatch` and `preempt` only move pids
around, `resetPolicy` discards every queued pid and keeps only the stale
running one. -/
def expectedTracked (s : RRState) : Op → Multiset Int
  | .newProcess pid => pid ::ₘ (tracked s : Multiset Int)
  | .resetPolicy => if s.runningPid = IDLE then 0 else {s.runningPid}
  | _ => (tracked s : Multiset Int)

end RRScheduling

namespace RRScheduling

/-! ## C1–C5: single-operation behaviour -/

/-- **C1.** For every state with a non-empty ready queue, `dispatch`
removes the head of the queue, sets `runningPid` to that head, sets
`quantumClock` to `quantum` and then immediately decrements it by one (net
effect `quantumClock = quantum - 1`), and returns the new `runningPid`. -/
theorem dispatch_nonempty_spec (s : RRState) (front : Int) (rest : List Int)
    (h : s.readyQueue = front :: rest) :
    dispatch s =
      (front,
        { s with readyQueue := rest, runningPid := front,
                 quantumClock := s.quantum - 1 }) ∧
    (dispatch s).1 = (dispatch s).2.runningPid := by
  simp [dispatch, h]

/-- Witness for C1 at a concrete state. -/
theorem dispatch_nonempty_spec_witness :
    dispatch { readyQueue := [4, 7], runningPid := IDLE,
               quantumClock := 3, quantum := 3 } =
      (4, { readyQueue := [7], runningPid := 4,
            quantumClock := 2, quantum := 3 }) := by
  have h := dispatch_nonempty_spec
    { readyQueue := [4, 7], runningPid := IDLE,
      quantumClock := 3, quantum := 3 } 4 [7] rfl
  simpa using h.1

/-- **C4.** For every state with an empty ready queue, `dispatch` returns
`IDLE` and leaves the whole state (queue, `runningPid`, `quantumClock`,
`quantum`) unchanged. -/
theorem dispatch_empty_spec (s : RRState) (h : s.readyQueue = []) :
    dispatch s = (IDLE, s) := by
  simp [dispatch, h]

/-- Witness for C4 at a concrete state. -/
theorem dispatch_empty_spec_witness :
    dispatch { readyQueue := [], runningPid := 9,
               quantumClock := 2, quantum := 5 } =
      (IDLE, { readyQueue := [], runningPid := 9,
               quantumClock := 2, quantum := 5 }) :=
  dispatch_empty_spec _ rfl

/-- **C3.** Whenever `preempt` is called with `quantumClock = 0` while a
process is running, it pushes the running pid onto the tail of the ready
queue (behind every waiting process), sets `runningPid` to `IDLE` and
returns `true`; otherwise (`quantumClock ≠ 0`) it decrements
`quantumClock` by one and returns `false`. -/
theorem preempt_spec (s : RRState) (hrun : s.runningPid ≠ IDLE) :
    (s.quantumClock = 0 →
      preempt s =
        (true,
          { s with readyQueue := s.readyQueue ++ [s.runningPid],
                   runningPid := IDLE })) ∧
    (s.quantumClock ≠ 0 →
      preempt s = (false, { s with quantumClock := s.quantumClock - 1 })) := by
  constructor
  · intro h0
    simp [preempt, h0]
  · intro hne
    simp [preempt, hne]

/-- Witness for C3 at concrete states (both branches). -/
theorem preempt_spec_witness :
    preempt { readyQueue := [2, 3], runningPid := 1,
              quantumClock := 0, quantum := 4 } =
      (true, { readyQueue := [2, 3, 1], runningPid := IDLE,
               quantumClock := 0, quantum := 4 }) ∧
    preempt { readyQueue := [2, 3], runningPid := 1,
              quantumClock := 2, quantum := 4 } =
      (false, { readyQueue := [2, 3], runningPid := 1,
                quantumClock := 1, quantum := 4 }) := by
  constructor
  · exact (preempt_spec
      { readyQueue := [2, 3], runningPid := 1,
        quantumClock := 0, quantum := 4 } (by decide)).1 rfl
  · exact (preempt_spec
      { readyQueue := [2, 3], runningPid := 1,
        quantumClock := 2, quantum := 4 } (by decide)).2 (by decide)

/-- The preempt results starting from a clock value `n` over `n + 1`
calls: `n` times `false`, then `true`. -/
theorem preemptResults_of_clock (n : Nat) :
    ∀ s : RRState, s.quantumClock = (n : Int) →
      preemptResults s (n + 1) = List.replicate n false ++ [true] := by
  induction n with
  | zero =>
    intro s h
    simp [preemptResults, preempt, h]
  | succ n ih =>
    intro s h
    have hne : s.quantumClock ≠ 0 := by
      rw [h]; exact_mod_cast Nat.succ_ne_zero n
    have hstep : preempt s = (false, { s with quantumClock := s.quantumClock - 1 }) := by
      simp [preempt, hne]
    have hclock : ({ s with quantumClock := s.quantumClock - 1 } : RRState).quantumClock
        = (n : Int) := by
      simp [h]
    calc preemptResults s (n + 1 + 1)
        = (preempt s).1 :: preemptResults (preempt s).2 (n + 1) := rfl
      _ = false :: preemptResults { s with quantumClock := s.quantumClock - 1 } (n + 1) := by
          rw [hstep]
      _ = false :: (List.replicate n false ++ [true]) := by
          rw [ih _ hclock]
      _ = List.replicate (n + 1) false ++ [true] := by
          simp [List.replicate_succ]

/-- **C2.** For every positive quantum `q = n + 1`: after a successful
`dispatch` of a process that then runs continuously, calling `preempt`
exactly `q` times returns `false` on each of the first `q - 1` calls and
`true` on the `q`-th call. -/
theorem preempt_quantum_times (n : Nat) (s : RRState) (front : Int)
    (rest : List Int) (hq : s.quantum = ((n : Int) + 1))
    (h : s.readyQueue = front :: rest) :
    preemptResults (dispatch s).2 (n + 1) = List.replicate n false ++ [true] := by
  have hd : (dispatch s).2 =
      { s with readyQueue := rest, runningPid := front,
               quantumClock := s.quantum - 1 } :=
    congrArg Prod.snd (dispatch_nonempty_spec s front rest h).1
  apply preemptResults_of_clock
  rw [hd]
  simp [hq]

/-- Witness for C2: quantum 3, one queued process; the three preempt
calls return `false`, `false`, `true`. -/
theorem preempt_quantum_times_witness :
    preemptResults
      (dispatch { readyQueue := [5], runningPid := IDLE,
                  quantumClock := 3, quantum := 3 }).2 3 =
      [false, false, true] := by
  have h := preempt_quantum_times 2
    { readyQueue := [5], runningPid := IDLE, quantumClock := 3, quantum := 3 }
    5 [] (by decide) rfl
  simpa using h

/-! ## C5: resetPolicy -/

/-- **C5, counterexample.** The claim says `resetPolicy` resets
`runningPid` to `IDLE`.  It does not: starting from a fresh policy with
quantum 1, after `newProcess 5`, `dispatch` (pid 5 now running) and
`resetPolicy`, the `runningPid` field still holds 5, not `IDLE`. -/
theorem resetPolicy_keeps_runningPid :
    (runOps (mkRRSchedulingPolicy 1)
      [Op.newProcess 5, Op.dispatch, Op.resetPolicy]).runningPid = 5 ∧
    (5 : Int) ≠ IDLE := by
  decide

/-- **C5, amended.** `resetPolicy` empties the ready queue and sets
`quantumClock` to `quantum`, leaving `runningPid` (and `quantum`)
unchanged — it does not reset `runningPid` to `IDLE`.  No process queued
before the reset is visible via any subsequent `dispatch` call: right
after a reset `dispatch` returns `IDLE` and leaves the state fixed, so
every later `dispatch` does too (until a new `newProcess`). -/
theorem resetPolicy_spec (s : RRState) :
    resetPolicy s =
      { s with readyQueue := [], quantumClock := s.quantum } ∧
    (resetPolicy s).runningPid = s.runningPid ∧
    dispatch (resetPolicy s) = (IDLE, resetPolicy s) := by
  refine ⟨rfl, rfl, ?_⟩
  exact dispatch_empty_spec _ rfl

/-! ## C9 and C10: misuse behaviour -/

/-- **C9, counterexample.** The claim says the implementation either
rejects construction with a non-positive quantum or treats `preempt` with
no running process as a no-op returning `false`.  Neither holds: the
constructor accepts quantum 0 without any check (the resulting policy
simply has `quantum = 0`), and on that fresh idle policy `preempt`
returns `true` and mutates the state (it pushes the `IDLE` sentinel onto
the ready queue). -/
theorem misuse_neither_rejected_nor_noop :
    (mkRRSchedulingPolicy 0).quantum = 0 ∧
    (mkRRSchedulingPolicy 0).runningPid = IDLE ∧
    (preempt (mkRRSchedulingPolicy 0)).1 = true ∧
    (preempt (mkRRSchedulingPolicy 0)).2 ≠ mkRRSchedulingPolicy 0 := by
  decide

/-- **C9, amended.** The implementation resolves neither misuse
condition: the constructor accepts every quantum value, non-positive
included, storing it unchanged; and `preempt` while no process is running
follows the ordinary code path — with `quantumClock ≠ 0` it decrements
the clock and returns `false` (a state mutation, not a no-op), and with
`quantumClock = 0` it pushes the `IDLE` sentinel onto the ready queue and
returns `true`. -/
theorem misuse_behaviour :
    (∀ q : Int, (mkRRSchedulingPolicy q).quantum = q ∧
      (mkRRSchedulingPolicy q).quantumClock = q) ∧
    (∀ s : RRState, s.runningPid = IDLE →
      (s.quantumClock = 0 →
        preempt s =
          (true, { s with readyQueue := s.readyQueue ++ [IDLE] })) ∧
      (s.quantumClock ≠ 0 →
        preempt s = (false, { s with quantumClock := s.quantumClock - 1 }))) := by
  refine ⟨fun q => ⟨rfl, rfl⟩, fun s hidle => ⟨fun h0 => ?_, fun hne => ?_⟩⟩
  · simp [preempt, h0, hidle]
  · simp [preempt, hne]

/-- Witness for the amended C9 at concrete inputs. -/
theorem misuse_behaviour_witness :
    ((mkRRSchedulingPolicy (-2)).quantum = -2 ∧
      (mkRRSchedulingPolicy (-2)).quantumClock = -2) ∧
    preempt { readyQueue := [8], runningPid := IDLE,
              quantumClock := 0, quantum := 2 } =
      (true, { readyQueue := [8, IDLE], runningPid := IDLE,
               quantumClock := 0, quantum := 2 }) := by
  refine ⟨misuse_behaviour.1 (-2), ?_⟩
  exact (misuse_behaviour.2
    { readyQueue := [8], runningPid := IDLE,
      quantumClock := 0, quantum := 2 } rfl).1 rfl

/-- **C10.** If `preempt` is called while no process is running
(`runningPid = IDLE`) and `quantumClock = 0`, the `IDLE` sentinel itself
is pushed onto the tail of the ready queue and `true` is returned; a
later `dispatch` on that (now non-empty) queue returns `IDLE` exactly as
it would a real pid: when the queue was empty before the `preempt`, the
`dispatch` pops the sentinel, sets `runningPid := IDLE` and arms the
quantum clock to `quantum - 1`. -/
theorem preempt_idle_pushes_idle (s : RRState) (hidle : s.runningPid = IDLE)
    (h0 : s.quantumClock = 0) :
    (preempt s).1 = true ∧
    (preempt s).2.readyQueue = s.readyQueue ++ [IDLE] ∧
    (s.readyQueue = [] →
      dispatch (preempt s).2 =
        (IDLE, { s with readyQueue := [], runningPid := IDLE,
                        quantumClock := s.quantum - 1 })) := by
  refine ⟨by simp [preempt, h0], by simp [preempt, h0, hidle], fun hq => ?_⟩
  have hpre : (preempt s).2 =
      { s with readyQueue := [IDLE], runningPid := IDLE } := by
    simp [preempt, h0, hidle, hq]
  rw [hpre]
  have h := (dispatch_nonempty_spec
    { s with readyQueue := [IDLE], runningPid := IDLE } IDLE [] rfl).1
  simpa using h

/-- Witness for C10 at a concrete state. -/
theorem preempt_idle_pushes_idle_witness :
    (preempt { readyQueue := [], runningPid := IDLE,
               quantumClock := 0, quantum := 3 }).1 = true ∧
    (preempt { readyQueue := [], runningPid := IDLE,
               quantumClock := 0, quantum := 3 }).2.readyQueue = [IDLE] ∧
    dispatch (preempt { readyQueue := [], runningPid := IDLE,
                        quantumClock := 0, quantum := 3 }).2 =
      (IDLE, { readyQueue := [], runningPid := IDLE,
               quantumClock := 2, quantum := 3 }) := by
  have h := preempt_idle_pushes_idle
    { readyQueue := [], runningPid := IDLE, quantumClock := 0, quantum := 3 }
    rfl rfl
  refine ⟨h.1, by simpa using h.2.1, by simpa using h.2.2 rfl⟩

/-! ## C8: the quantum clock stays in range -/

/-- One step keeps `0 ≤ quantumClock ≤ quantum` and preserves `quantum`,
provided the quantum is positive.  (No well-formedness of the call is
needed for this.) -/
theorem clock_bounds_step (s : RRState) (op : Op)
    (h1 : 0 ≤ s.quantumClock) (h2 : s.quantumClock ≤ s.quantum)
    (h3 : 0 < s.quantum) :
    0 ≤ (step s op).quantumClock ∧
    (step s op).quantumClock ≤ (step s op).quantum ∧
    (step s op).quantum = s.quantum := by
  cases op with
  | newProcess pid => exact ⟨h1, h2, rfl⟩
  | dispatch =>
    cases hq : s.readyQueue with
    | nil => simp [step, dispatch, hq]; exact ⟨h1, h2⟩
    | cons a t => simp [step, dispatch, hq]; omega
  | preempt =>
    by_cases h0 : s.quantumClock = 0
    · simp [step, preempt, h0]; omega
    · simp [step, preempt, h0]; omega
  | resetPolicy => simp [step, resetPolicy]; omega

/-- Running any sequence keeps `0 ≤ quantumClock ≤ quantum` and preserves
`quantum`, provided the quantum is positive. -/
theorem clock_bounds_run (ops : List Op) :
    ∀ s : RRState, 0 ≤ s.quantumClock → s.quantumClock ≤ s.quantum →
      0 < s.quantum →
      0 ≤ (runOps s ops).quantumClock ∧
      (runOps s ops).quantumClock ≤ (runOps s ops).quantum ∧
      (runOps s ops).quantum = s.quantum := by
  induction ops with
  | nil => intro s h1 h2 h3; exact ⟨h1, h2, rfl⟩
  | cons op ops ih =>
    intro s h1 h2 h3
    have hstep := clock_bounds_step s op h1 h2 h3
    have hrest := ih (step s op) hstep.1 hstep.2.1 (hstep.2.2 ▸ h3)
    exact ⟨hrest.1, hrest.2.1, hrest.2.2.trans hstep.2.2⟩

/-- **C8.** For every policy constructed with a positive quantum `q` and
driven by a well-formed call sequence (`preempt` only while a process is
running), `quantumClock` stays within `[0, q]` after every operation:
quantifying over all well-formed sequences covers every prefix of a
run. -/
theorem quantumClock_in_range (q : Int) (ops : List Op) (hq : 0 < q)
    (hwf : wfTrace (mkRRSchedulingPolicy q) ops = true) :
    0 ≤ (runOps (mkRRSchedulingPolicy q) ops).quantumClock ∧
    (runOps (mkRRSchedulingPolicy q) ops).quantumClock ≤ q := by
  have h := clock_bounds_run ops (mkRRSchedulingPolicy q) (le_of_lt hq)
    (le_refl q) hq
  have hq2 : (runOps (mkRRSchedulingPolicy q) ops).quantum = q := h.2.2
  exact ⟨h.1, le_of_le_of_eq h.2.1 hq2⟩

/-- Witness for C8: quantum 2 and a well-formed five-operation trace. -/
theorem quantumClock_in_range_witness :
    (0 : Int) < 2 ∧
    wfTrace (mkRRSchedulingPolicy 2)
      [Op.newProcess 1, Op.dispatch, Op.preempt, Op.preempt, Op.dispatch]
      = true ∧
    0 ≤ (runOps (mkRRSchedulingPolicy 2)
      [Op.newProcess 1, Op.dispatch, Op.preempt, Op.preempt, Op.dispatch]).quantumClock ∧
    (runOps (mkRRSchedulingPolicy 2)
      [Op.newProcess 1, Op.dispatch, Op.preempt, Op.preempt, Op.dispatch]).quantumClock ≤ 2 :=
  ⟨by decide, by decide,
    quantumClock_in_range 2
      [Op.newProcess 1, Op.dispatch, Op.preempt, Op.preempt, Op.dispatch]
      (by decide) (by decide)⟩

/-! ## C6: no pid duplicated, pids only moved -/

/-- Appending an element is a permutation of consing it. -/
theorem perm_snoc (a : Int) (l : List Int) : (l ++ [a]).Perm (a :: l) := by
  have h : (l ++ a :: []).Perm (a :: (l ++ [])) := List.perm_middle
  simpa using h

/-- One strictly well-formed operation preserves the C6 sanity
invariant. -/
theorem invC6_step (s : RRState) (op : Op) (h : InvC6 s)
    (hwf : wfOpStrict s op = true) : InvC6 (step s op) := by
  obtain ⟨hnd, hq⟩ := h
  cases op with
  | newProcess pid =>
    simp only [wfOpStrict, Bool.and_eq_true, decide_eq_true_eq] at hwf
    obtain ⟨hpt, hpi⟩ := hwf
    constructor
    · show ((s.readyQueue ++ [pid]) ++ [s.runningPid]).Nodup
      have hperm : ((s.readyQueue ++ [pid]) ++ [s.runningPid]).Perm
          (pid :: (s.readyQueue ++ [s.runningPid])) := by
        have h2 : (s.readyQueue ++ pid :: [s.runningPid]).Perm
            (pid :: (s.readyQueue ++ [s.runningPid])) := List.perm_middle
        simpa using h2
      exact hperm.nodup_iff.mpr (List.nodup_cons.mpr ⟨hpt, hnd⟩)
    · show IDLE ∉ s.readyQueue ++ [pid]
      simp only [List.mem_append, List.mem_singleton, not_or]
      exact ⟨hq, Ne.symm hpi⟩
  | dispatch =>
    simp only [wfOpStrict, decide_eq_true_eq] at hwf
    cases hque : s.readyQueue with
    | nil =>
      constructor
      · show (trackedAll (step s Op.dispatch)).Nodup
        simp only [step, dispatch, hque]
        exact hnd
      · show IDLE ∉ (step s Op.dispatch).readyQueue
        simp only [step, dispatch, hque]
        simp
    | cons a t =>
      have hnd2 : ((a :: t) ++ [s.runningPid]).Nodup := by
        rw [← hque]; exact hnd
      have hq2 : IDLE ∉ a :: t := by rw [← hque]; exact hq
      have hstep : step s Op.dispatch =
          { s with readyQueue := t, runningPid := a,
                   quantumClock := s.quantum - 1 } := by
        simp [step, dispatch, hque]
      rw [hstep]
      constructor
      · show (t ++ [a]).Nodup
        have hcons : (a :: t).Nodup := (List.nodup_append.mp hnd2).1
        exact (perm_snoc a t).nodup_iff.mpr hcons
      · show IDLE ∉ t
        exact fun hmem => hq2 (List.mem_cons_of_mem a hmem)
  | preempt =>
    simp only [wfOpStrict, decide_eq_true_eq] at hwf
    by_cases h0 : s.quantumClock = 0
    · have hstep : step s Op.preempt =
          { s with readyQueue := s.readyQueue ++ [s.runningPid],
                   runningPid := IDLE } := by
        simp [step, preempt, h0]
      rw [hstep]
      constructor
      · show ((s.readyQueue ++ [s.runningPid]) ++ [IDLE]).Nodup
        have hni : IDLE ∉ s.readyQueue ++ [s.runningPid] := by
          simp only [List.mem_append, List.mem_singleton, not_or]
          exact ⟨hq, Ne.symm hwf⟩
        exact (perm_snoc IDLE _).nodup_iff.mpr (List.nodup_cons.mpr ⟨hni, hnd⟩)
      · show IDLE ∉ s.readyQueue ++ [s.runningPid]
        simp only [List.mem_append, List.mem_singleton, not_or]
        exact ⟨hq, Ne.symm hwf⟩
    · have hstep : step s Op.preempt =
          { s with quantumClock := s.quantumClock - 1 } := by
        simp [step, preempt, h0]
      rw [hstep]
      exact ⟨hnd, hq⟩
  | resetPolicy =>
    constructor
    · show ([] ++ [s.runningPid]).Nodup
      simp
    · show IDLE ∉ ([] : List Int)
      simp

/-- One strictly well-formed operation changes the multiset of tracked
pids exactly as expected: `newProcess` inserts its pid and every other
operation only moves pids (with `resetPolicy` dropping the queued ones by
design). -/
theorem tracked_step (s : RRState) (op : Op) (h : InvC6 s)
    (hwf : wfOpStrict s op = true) :
    (tracked (step s op) : Multiset Int) = expectedTracked s op := by
  obtain ⟨hnd, hq⟩ := h
  cases op with
  | newProcess pid =>
    show ((tracked { s with readyQueue := s.readyQueue ++ [pid] } : List Int) : Multiset Int)
      = pid ::ₘ (tracked s : Multiset Int)
    have hperm : (tracked { s with readyQueue := s.readyQueue ++ [pid] }).Perm
        (pid :: tracked s) := by
      simp only [tracked]
      have h2 : (s.readyQueue ++ pid ::
          if s.runningPid = IDLE then [] else [s.runningPid]).Perm
          (pid :: (s.readyQueue ++
            if s.runningPid = IDLE then [] else [s.runningPid])) :=
        List.perm_middle
      simpa using h2
    exact_mod_cast Multiset.coe_eq_coe.mpr hperm
  | dispatch =>
    simp only [wfOpStrict, decide_eq_true_eq] at hwf
    cases hque : s.readyQueue with
    | nil =>
      have hstep : step s Op.dispatch = s := by
        simp [step, dispatch, hque]
      rw [hstep]
      rfl
    | cons a t =>
      have hstep : step s Op.dispatch =
          { s with readyQueue := t, runningPid := a,
                   quantumClock := s.quantum - 1 } := by
        simp [step, dispatch, hque]
      have ha : a ≠ IDLE := by
        intro hcon
        exact hq (by rw [hque, hcon]; exact List.mem_cons_self IDLE t)
      rw [hstep]
      show ((t ++ if a = IDLE then [] else [a] : List Int) : Multiset Int)
        = expectedTracked s Op.dispatch
      have hexp : expectedTracked s Op.dispatch = (tracked s : Multiset Int) := rfl
      rw [hexp]
      have htr : tracked s = a :: t := by
        simp [tracked, hque, hwf]
      rw [htr, if_neg ha]
      exact Multiset.coe_eq_coe.mpr (perm_snoc a t)
  | preempt =>
    simp only [wfOpStrict, decide_eq_true_eq] at hwf
    by_cases h0 : s.quantumClock = 0
    · have hstep : step s Op.preempt =
          { s with readyQueue := s.readyQueue ++ [s.runningPid],
                   runningPid := IDLE } := by
        simp [step, preempt, h0]
      rw [hstep]
      show ((s.readyQueue ++ [s.runningPid] ++ ([] : List Int) : List Int) : Multiset Int)
        = expectedTracked s Op.preempt
      have hexp : expectedTracked s Op.preempt = (tracked s : Multiset Int) := rfl
      rw [hexp]
      have htr : tracked s = s.readyQueue ++ [s.runningPid] := by
        simp [tracked, hwf]
      rw [htr]
      simp
    · have hstep : step s Op.preempt =
          { s with quantumClock := s.quantumClock - 1 } := by
        simp [step, preempt, h0]
      rw [hstep]
      rfl
  | resetPolicy =>
    show ((([] : List Int) ++ if s.runningPid = IDLE then [] else [s.runningPid] : List Int) : Multiset Int)
      = expectedTracked s Op.resetPolicy
    by_cases hr : s.runningPid = IDLE
    · simp [expectedTracked, hr]
    · simp [expectedTracked, hr]

/-- The C6 sanity invariant holds after any strictly well-formed run. -/
theorem invC6_run (ops : List Op) :
    ∀ s : RRState, InvC6 s → wfTraceStrict s ops = true →
      InvC6 (runOps s ops) := by
  induction ops with
  | nil => intro s h _; exact h
  | cons op ops ih =>
    intro s h hwf
    simp only [wfTraceStrict, Bool.and_eq_true] at hwf
    exact ih (step s op) (invC6_step s op h hwf.1) hwf.2

/-- **C6, counterexample.** The claim's hypotheses only constrain
`newProcess` (fresh pids) and `preempt` (only while running); they do not
stop the driver from calling `dispatch` while a process is still running,
and that call silently overwrites — loses — the running pid.  The trace
`newProcess 1; newProcess 2; dispatch; dispatch` is well-formed in the
claim's sense, pid 1 is tracked after the first `dispatch`, and it is
gone from both the ready queue and `runningPid` after the second. -/
theorem dispatch_while_running_loses_pid :
    wfTrace (mkRRSchedulingPolicy 3)
      [Op.newProcess 1, Op.newProcess 2, Op.dispatch, Op.dispatch] = true ∧
    (1 : Int) ∈ trackedAll (runOps (mkRRSchedulingPolicy 3)
      [Op.newProcess 1, Op.newProcess 2, Op.dispatch]) ∧
    (1 : Int) ∉ trackedAll (runOps (mkRRSchedulingPolicy 3)
      [Op.newProcess 1, Op.newProcess 2, Op.dispatch, Op.dispatch]) := by
  decide

/-- **C6, amended.** Under the claim's hypotheses strengthened by the
spec's driver contract — `dispatch` is only called while no process is
running, and `newProcess` pids are real pids (not the `IDLE` sentinel) —
every ProcessId appears at most once across the union of the ready queue
and `runningPid` (and `IDLE` never sits in the queue); moreover each
single operation neither duplicates nor loses a pid: `newProcess` adds
exactly its pid to the tracked multiset, `dispatch` and `preempt` leave
it unchanged, and `resetPolicy` — whose contract is to discard — keeps
exactly the stale running pid. -/
theorem tracked_nodup_and_conserved :
    (∀ (q : Int) (ops : List Op),
      wfTraceStrict (mkRRSchedulingPolicy q) ops = true →
      (trackedAll (runOps (mkRRSchedulingPolicy q) ops)).Nodup ∧
      IDLE ∉ (runOps (mkRRSchedulingPolicy q) ops).readyQueue) ∧
    (∀ (s : RRState) (op : Op), InvC6 s → wfOpStrict s op = true →
      (tracked (step s op) : Multiset Int) = expectedTracked s op) := by
  constructor
  · intro q ops hwf
    have h0 : InvC6 (mkRRSchedulingPolicy q) := by
      constructor
      · show (([] : List Int) ++ [IDLE]).Nodup
        simp
      · show IDLE ∉ ([] : List Int)
        simp
    exact invC6_run ops (mkRRSchedulingPolicy q) h0 hwf
  · exact tracked_step

/-- Witness for the amended C6: a concrete well-formed trace with a
preemption, and a concrete `newProcess` step adding pid 4. -/
theorem tracked_nodup_and_conserved_witness :
    ((trackedAll (runOps (mkRRSchedulingPolicy 1)
        [Op.newProcess 1, Op.newProcess 2, Op.dispatch, Op.preempt])).Nodup ∧
      IDLE ∉ (runOps (mkRRSchedulingPolicy 1)
        [Op.newProcess 1, Op.newProcess 2, Op.dispatch, Op.preempt]).readyQueue) ∧
    (tracked (step { readyQueue := [2, 3], runningPid := 1,
                     quantumClock := 0, quantum := 2 } (Op.newProcess 4))
      : Multiset Int) =
      expectedTracked { readyQueue := [2, 3], runningPid := 1,
                        quantumClock := 0, quantum := 2 } (Op.newProcess 4) :=
  ⟨tracked_nodup_and_conserved.1 1
      [Op.newProcess 1, Op.newProcess 2, Op.dispatch, Op.preempt] (by decide),
    tracked_nodup_and_conserved.2
      { readyQueue := [2, 3], runningPid := 1,
        quantumClock := 0, quantum := 2 } (Op.newProcess 4)
      (by decide) (by decide)⟩

/-! ## C7: FIFO dispatch order -/

/-- Every operation except `resetPolicy` treats the ready queue as a pure
FIFO: what it removes comes off the front, what it adds goes on the
back. -/
theorem queue_fifo_step (s : RRState) (op : Op) (hop : op ≠ Op.resetPolicy) :
    dispatchedBy s op ++ (step s op).readyQueue =
      s.readyQueue ++ pushedBy s op := by
  cases op with
  | newProcess pid => simp [dispatchedBy, pushedBy, step, newProcess]
  | dispatch =>
    cases hque : s.readyQueue with
    | nil => simp [dispatchedBy, pushedBy, step, dispatch, hque]
    | cons a t => simp [dispatchedBy, pushedBy, step, dispatch, hque]
  | preempt =>
    by_cases h0 : s.quantumClock = 0
    · simp [dispatchedBy, pushedBy, step, preempt, h0]
    · simp [dispatchedBy, pushedBy, step, preempt, h0]
  | resetPolicy => exact absurd rfl hop

/-- Along any reset-free call sequence, the dispatch log followed by the
final ready queue equals the initial ready queue followed by the push
log: dispatches consume the enqueue order exactly, front to back. -/
theorem queue_fifo_run (ops : List Op) :
    ∀ s : RRState, Op.resetPolicy ∉ ops →
      dispatchLog s ops ++ (runOps s ops).readyQueue =
        s.readyQueue ++ pushLog s ops := by
  induction ops with
  | nil => intro s _; simp [dispatchLog, pushLog, runOps]
  | cons op ops ih =>
    intro s hres
    have hop : op ≠ Op.resetPolicy := fun h => hres (h ▸ List.mem_cons_self op ops)
    have hres2 : Op.resetPolicy ∉ ops := fun h => hres (List.mem_cons_of_mem op h)
    calc dispatchedBy s op ++ dispatchLog (step s op) ops
            ++ (runOps (step s op) ops).readyQueue
        = dispatchedBy s op ++ (dispatchLog (step s op) ops
            ++ (runOps (step s op) ops).readyQueue) := by
          rw [List.append_assoc]
      _ = dispatchedBy s op ++ ((step s op).readyQueue
            ++ pushLog (step s op) ops) := by
          rw [ih (step s op) hres2]
      _ = (dispatchedBy s op ++ (step s op).readyQueue)
            ++ pushLog (step s op) ops := by
          rw [List.append_assoc]
      _ = (s.readyQueue ++ pushedBy s op) ++ pushLog (step s op) ops := by
          rw [queue_fifo_step s op hop]
      _ = s.readyQueue ++ (pushedBy s op ++ pushLog (step s op) ops) := by
          rw [List.append_assoc]

/-- An element of `l ++ t` whose first occurrence lies before `l.length`
is an element of `l`. -/
theorem mem_left_of_indexOf_lt (a : Int) (l t : List Int)
    (hm : a ∈ l ++ t) (hlt : (l ++ t).indexOf a < l.length) : a ∈ l := by
  by_contra hnl
  have h : (l ++ t).indexOf a = l.length + t.indexOf a :=
    List.indexOf_append_of_not_mem hnl
  omega

/-- **C7.** Dispatch order never deviates from arrival/re-queue order:
for every reset-free call sequence started on an empty ready queue, the
dispatch log is a prefix of the push log; consequently if pid `A` is
enqueued strictly before pid `B` (first occurrence in the push log,
i.e. `newProcess` order for fresh pids) and `B` is ever dispatched, then
`A` is dispatched before `B` — in particular this holds when neither is
preempted before the other is dispatched, the case the claim singles
out. -/
theorem fifo_dispatch_order (ops : List Op) (s : RRState) (A B : Int)
    (hres : Op.resetPolicy ∉ ops) (hq : s.readyQueue = [])
    (hA : A ∈ pushLog s ops) (hB : B ∈ dispatchLog s ops)
    (hlt : (pushLog s ops).indexOf A < (pushLog s ops).indexOf B) :
    A ∈ dispatchLog s ops ∧
    (dispatchLog s ops).indexOf A < (dispatchLog s ops).indexOf B := by
  have heq : dispatchLog s ops ++ (runOps s ops).readyQueue = pushLog s ops := by
    have h := queue_fifo_run ops s hres
    rwa [hq, List.nil_append] at h
  have hBidx : (pushLog s ops).indexOf B = (dispatchLog s ops).indexOf B := by
    rw [← heq]
    exact List.indexOf_append_of_mem hB
  have hBlen : (dispatchLog s ops).indexOf B < (dispatchLog s ops).length :=
    List.indexOf_lt_length.mpr hB
  have hAmem : A ∈ dispatchLog s ops := by
    apply mem_left_of_indexOf_lt A (dispatchLog s ops) (runOps s ops).readyQueue
    · rw [heq]; exact hA
    · rw [heq]; omega
  refine ⟨hAmem, ?_⟩
  have hAidx : (pushLog s ops).indexOf A = (dispatchLog s ops).indexOf A := by
    rw [← heq]
    exact List.indexOf_append_of_mem hAmem
  omega

/-- Witness for C7: pids 1 and 2 arrive in that order with quantum 1;
pid 1 is dispatched, preempted and re-queued behind 2, then 2 is
dispatched — dispatch order `[1, 2]` follows arrival order. -/
theorem fifo_dispatch_order_witness :
    (1 : Int) ∈ dispatchLog (mkRRSchedulingPolicy 1)
      [Op.newProcess 1, Op.newProcess 2, Op.dispatch, Op.preempt,
        Op.dispatch] ∧
    (dispatchLog (mkRRSchedulingPolicy 1)
      [Op.newProcess 1, Op.newProcess 2, Op.dispatch, Op.preempt,
        Op.dispatch]).indexOf 1 <
    (dispatchLog (mkRRSchedulingPolicy 1)
      [Op.newProcess 1, Op.newProcess 2, Op.dispatch, Op.preempt,
        Op.dispatch]).indexOf 2 :=
  fifo_dispatch_order
    [Op.newProcess 1, Op.newProcess 2, Op.dispatch, Op.preempt, Op.dispatch]
    (mkRRSchedulingPolicy 1) 1 2 (by decide) (by decide) (by decide)
    (by decide) (by decide)

end RRScheduling
